import Mathlib

/-!
Verification of the `ruma_api` endpoint code generator (`ruma-api-macros/src/api.rs`).

The macro consumes an endpoint definition (metadata, request schema, response
schema, optional `error:` clause) and generates four codec routines:
outgoing-request encoding, incoming-request decoding, outgoing-response
encoding, incoming-response decoding.  This file gives a shallow embedding of
that data model and of the semantics of the generated code, and proves the
specified properties about it.

The JSON and HTTP libraries are external collaborators of the repository, so
JSON documents are modelled structurally (`Json`) and HTTP messages as records;
an HTTP request body is `Option Json`, with `none` standing for the completely
empty byte body `b""` and `some j` for a serialized JSON document.
-/

namespace RumaApi

/-- Structural model of a JSON document (the JSON codec is an external
collaborator of the repository, so serialization is modelled as identity on
this structure). -/
inductive Json where
  | null : Json
  | bool (b : Bool) : Json
  | num (n : Int) : Json
  | str (s : String) : Json
  | obj (fields : List (String × Json)) : Json

/-- Wire location of one schema field, from the request/response field
attribute vocabulary of the macro (an unmarked field is a body field). -/
inductive FieldLocation where
  | path : FieldLocation
  | query : FieldLocation
  | queryMap : FieldLocation
  | header : FieldLocation
  | body : FieldLocation
  | newtypeBody : FieldLocation
deriving DecidableEq, BEq

/-- One declared field of a request or response schema. -/
structure SField where
  name : String
  loc : FieldLocation
deriving DecidableEq

/-- A request or response schema: the ordered list of declared fields. -/
structure Schema where
  fields : List SField
deriving DecidableEq

/-- Fields with the `path` location, in declaration order. -/
def Schema.pathFields (s : Schema) : List SField :=
  s.fields.filter (fun f => f.loc == FieldLocation.path)

/-- Fields with the `query` location, in declaration order. -/
def Schema.queryFields (s : Schema) : List SField :=
  s.fields.filter (fun f => f.loc == FieldLocation.query)

/-- The (at most one) `query_map` field. -/
def Schema.queryMapField (s : Schema) : Option SField :=
  s.fields.find? (fun f => f.loc == FieldLocation.queryMap)

/-- Fields with the `header` location, in declaration order. -/
def Schema.headerFields (s : Schema) : List SField :=
  s.fields.filter (fun f => f.loc == FieldLocation.header)

/-- Fields with the `body` location, in declaration order. -/
def Schema.bodyFields (s : Schema) : List SField :=
  s.fields.filter (fun f => f.loc == FieldLocation.body)

/-- The (at most one) `newtype_body` field. -/
def Schema.newtypeBodyField (s : Schema) : Option SField :=
  s.fields.find? (fun f => f.loc == FieldLocation.newtypeBody)

/-- Model of `request.has_body_fields()`. -/
def Schema.hasBodyFields (s : Schema) : Bool :=
  !s.bodyFields.isEmpty

/-- Model of `request.has_path_fields()`. -/
def Schema.hasPathFields (s : Schema) : Bool :=
  !s.pathFields.isEmpty

/-- Endpoint metadata (`metadata` block of the macro input).  The method and
authentication scheme are carried as strings, exactly as `api.rs` compares
them (`metadata.method == "GET"`, `authentication == "AccessToken"`,
`authentication != "None"`). -/
structure Metadata where
  description : String
  method : String
  name : String
  path : String
  rateLimited : Bool
  authentication : String
deriving DecidableEq

/-- Wire-level HTTP request (`http::Request<Vec<u8>>`); the body is `none`
for the empty byte body and `some j` for a serialized JSON document. -/
structure HttpRequest where
  method : String
  uri : String
  headers : List (String × String)
  body : Option Json

/-- Wire-level HTTP response (`http::Response<Vec<u8>>`). -/
structure HttpResponse where
  status : Nat
  headers : List (String × String)
  body : Option Json

/-- Model of `ruma_api::error::IntoHttpError` (encode-side failures). -/
inductive IntoHttpError where
  | needsAuthentication : IntoHttpError
  | invalidHeader : IntoHttpError
deriving DecidableEq

/-- Model of `ruma_api::error::FromHttpRequestError` (incoming-request decode failure). -/
inductive FromHttpRequestError where
  | deserialization : FromHttpRequestError
deriving DecidableEq

/-- Model of `ruma_api::error::ServerError<E>`: a status-`≥ 400` response, either
decoded by the endpoint's error type (`known`) or kept verbatim (`unknown`,
preserving the original response's status and raw payload). -/
inductive ServerError (E : Type) where
  | known (err : E) : ServerError E
  | unknown (resp : HttpResponse) : ServerError E

/-- Model of `ruma_api::error::FromHttpResponseError<E>`. -/
inductive FromHttpResponseError (E : Type) where
  | deserialization : FromHttpResponseError E
  | http (err : ServerError E) : FromHttpResponseError E

/-- A structured value of the generated `Request` type.  Field payloads are
kept in wire form: strings for path/query/header fields, JSON documents for
body fields (body fields are `Option`al so that unset optional fields are
representable; `none` is serialized by skipping the field). -/
structure ReqValue where
  pathVals : List String
  queryVals : List String
  queryMapVal : List (String × String)
  headerVals : List String
  bodyVals : List (Option Json)
  newtypeVal : Option Json

/-- A structured value of the generated `Response` type. -/
structure RespValue where
  headerVals : List String
  bodyVals : List (Option Json)
  newtypeVal : Option Json

/-! ### String-level helpers used by the generated code -/

/-- Join a list of strings with a separator (the model of the string joining
performed by `format!` / query-string assembly in the generated code). -/
def joinSep (sep : String) : List String → String
  | [] => ""
  | [x] => x
  | x :: y :: ys => x ++ sep ++ joinSep sep (y :: ys)

/-- Model of `http::Uri::path()` for origin-form URIs: everything before the
first `?`. -/
def uriPathOf (uri : String) : String :=
  String.mk (uri.data.takeWhile (fun c => c != '?'))

/-- Model of `http::Uri::query()` for origin-form URIs: everything after the
first `?` (empty when there is no query part). -/
def uriQueryOf (uri : String) : String :=
  String.mk ((uri.data.dropWhile (fun c => c != '?')).drop 1)

/-- The base-URL normalization of `try_into_http_request`:
`match base_url.as_bytes().last() { Some(b'/') => &base_url[..len - 1], _ => base_url }`. -/
def stripTrailingSlash (b : String) : String :=
  if b.data.getLast? = some '/' then String.mk b.data.dropLast else b

/-- Whether a path-template segment is a `\x7bparam\x7d` placeholder. -/
def isPlaceholder (seg : String) : Bool :=
  seg.data.head? == some '\x7b'

/-- Substitute path-field values positionally (in declaration order) for the
placeholder segments of a path template.

Modelled from the spec: `util::request_path_string_and_parse` is not part of
the sources; the spec states the request path is the "path template with Path
fields substituted positionally in declaration order". -/
def substSegments : List String → List String → List String
  | [], _ => []
  | seg :: rest, vals =>
    if isPlaceholder seg then
      match vals with
      | [] => seg :: substSegments rest []
      | v :: vs => v :: substSegments rest vs
    else
      seg :: substSegments rest vals

/-- Splitting a path template on `/` (structurally, at the character level;
by `String.split_of_valid` this agrees with `String.split` on `(· == '/')`). -/
def splitSlash (s : String) : List String :=
  (List.splitOnP (fun c => c == '/') s.data).map String.mk

/-- The substituted request path used in the generated URI.

Modelled from the spec: `util::request_path_string_and_parse` is not part of
the sources. -/
def requestPathString (template : String) (vals : List String) : String :=
  joinSep "/" (substSegments (splitSlash template) vals)

/-- Collect the segments sitting at the placeholder positions of a template. -/
def extractAtPlaceholders : List String → List String → List String
  | [], _ => []
  | _ :: _, [] => []
  | t :: ts, sg :: sgs =>
    if isPlaceholder t then sg :: extractAtPlaceholders ts sgs
    else extractAtPlaceholders ts sgs

/-- Recover the path-field values from the split URI path segments (which do
not include the empty segment before the leading `/`).

Modelled from the spec: the parse half of `util::request_path_string_and_parse`
is not part of the sources; it inverts the positional substitution. -/
def parseRequestPath (template : String) (segments : List String) : List String :=
  extractAtPlaceholders ((splitSlash template).tail) segments

/-- The query string of the generated URI: each pair percent-encoded as
`key=value`, joined with `&`, prefixed with `?` when nonempty.

Modelled from the spec: `util::build_query_string` is not part of the sources.
The spec leaves the exact escaping policy open, so pairs are rendered
verbatim; round-trip theorems accordingly assume values free of the
separator characters. -/
def buildQueryString (pairs : List (String × String)) : String :=
  if pairs.isEmpty then ""
  else "?" ++ joinSep "&" (pairs.map (fun p => p.1 ++ "=" ++ p.2))

/-- Split one `key=value` unit at its first `=`. -/
def parseQueryKv (s : String) : String × String :=
  match s.split (fun c => c == '=') with
  | [] => ("", "")
  | k :: rest => (k, joinSep "=" rest)

/-- Parse a query string (without the leading `?`) into key/value pairs.

Modelled from the spec: `util::extract_request_query` is not part of the
sources; the spec states the decoder "parses the query string into key/value
pairs". -/
def parseQueryString (q : String) : List (String × String) :=
  if q.data.isEmpty then []
  else (q.split (fun c => c == '&')).map parseQueryKv

/-! ### Body framing -/

/-- The empty-body convention of the generated decoders (`api.rs`,
`extract_request_body` / `typed_response_body_decl`): a completely empty wire
body is replaced by the empty JSON object before deserialization
(`match body.as_slice() { b"" => b"\x7b\x7d", body => body }`). -/
def extractBodyJson : Option Json → Json
  | none => Json.obj []
  | some j => j

/-- Assemble the JSON object for the named body fields, skipping unset
optional fields. -/
def assembleBody (names : List String) (vals : List (Option Json)) :
    List (String × Json) :=
  (names.zip vals).filterMap (fun p => p.2.map (fun j => (p.1, j)))

/-- Lookup of one body field in the deserialized JSON document. -/
def jsonLookupObj (n : String) : Json → Option Json
  | Json.obj fs => fs.lookup n
  | _ => none

/-- The wire body built by the outgoing encoders: the `newtype_body` field
serialized directly as the whole payload, or a JSON object assembled from the
`body` fields, or empty.

Modelled from the spec: `util::build_request_body` / `Response::to_body` are
not part of the sources; the spec states the body is a "JSON object assembled
from Body fields, or the NewtypeBody field serialized directly as the whole
payload, or empty if neither is present", and that a request "whose every Body
field is optional and unset encodes to an empty body". -/
def buildBodyJson (bodyFields : List SField) (ntField : Option SField)
    (vals : List (Option Json)) (ntVal : Option Json) : Option Json :=
  match ntField with
  | some _ => ntVal
  | none =>
    if bodyFields.isEmpty then none
    else
      let asm := assembleBody (bodyFields.map SField.name) vals
      if asm.isEmpty then none else some (Json.obj asm)

/-- The body-field part of the generated decoders (shared by the
incoming-request and the status-`< 400` incoming-response paths): the empty
body is treated as the empty JSON object, the `newtype_body` field receives
the whole document, and each `body` field is looked up by name. -/
def decodeBodyPart (s : Schema) (body : Option Json) :
    List (Option Json) × Option Json :=
  match s.newtypeBodyField with
  | some _ => ([], some (extractBodyJson body))
  | none =>
    if s.bodyFields.isEmpty then ([], none)
    else ((s.bodyFields.map SField.name).map
            (fun n => jsonLookupObj n (extractBodyJson body)), none)

/-! ### The four generated codec routines -/

/-- The query pairs rendered into the outgoing URI: the flattened
`query_map` field if present, otherwise the named query fields in order. -/
def encodeQueryPairs (s : Schema) (v : ReqValue) : List (String × String) :=
  match s.queryMapField with
  | some _ => v.queryMapVal
  | none => (s.queryFields.map SField.name).zip v.queryVals

/-- The headers contributed by the declared header fields. -/
def encodeHeaderPairs (s : Schema) (v : ReqValue) : List (String × String) :=
  (s.headerFields.map SField.name).zip v.headerVals

/-- The authentication header block of `try_into_http_request` (`api.rs`,
`header_kvs`): when the scheme is `AccessToken`, a missing token fails with
`IntoHttpError::NeedsAuthentication`, otherwise
`Authorization: Bearer <token>` is appended (the `http` crate stores the
`AUTHORIZATION` name lowercased). -/
def authHeaders (authentication : String) (accessToken : Option String) :
    Except IntoHttpError (List (String × String)) :=
  if authentication == "AccessToken" then
    match accessToken with
    | none => Except.error IntoHttpError.needsAuthentication
    | some t => Except.ok [("authorization", "Bearer " ++ t)]
  else
    Except.ok []

/-- Outgoing-request encoder (`OutgoingRequest::try_into_http_request`): the
URI is the base URL with at most one trailing `/` trimmed, then the
substituted path, then the query string; headers are the declared header
fields plus the authentication header; the body follows the JSON framing
convention. -/
def encodeRequest (s : Schema) (meta : Metadata) (v : ReqValue)
    (baseUrl : String) (accessToken : Option String) :
    Except IntoHttpError HttpRequest :=
  match authHeaders meta.authentication accessToken with
  | Except.error e => Except.error e
  | Except.ok authHs =>
    Except.ok
      { method := meta.method
        uri := stripTrailingSlash baseUrl
            ++ requestPathString meta.path v.pathVals
            ++ buildQueryString (encodeQueryPairs s v)
        headers := encodeHeaderPairs s v ++ authHs
        body := buildBodyJson s.bodyFields s.newtypeBodyField v.bodyVals v.newtypeVal }

/-- The path-segment extraction of the incoming-request decoder (`api.rs`,
`extract_request_path`): `request.uri().path()[1..].split('/')`.  The byte
slice `[1..]` is out of bounds on an empty path, so the extraction is
undefined (`none`) there. -/
def extractRequestPathSegments (p : String) : Option (List String) :=
  if p.data.isEmpty then none
  else some ((String.mk (p.data.drop 1)).split (fun c => c == '/'))

/-- The path-field part of the incoming-request decoder: the split segments
of the URI path (without its leading slash), matched against the template's
placeholders; only generated when the request has path fields. -/
def decodePathPart (s : Schema) (meta : Metadata) (p : String) : List String :=
  if s.hasPathFields then
    parseRequestPath meta.path
      ((String.mk (p.data.drop 1)).split (fun c => c == '/'))
  else []

/-- The query-field part of the incoming-request decoder: a `query_map`
field receives all decoded pairs; otherwise each named query field is looked
up (failing when absent). -/
def decodeQueryPart (s : Schema) (qpairs : List (String × String)) :
    Option (List String × List (String × String)) :=
  match s.queryMapField with
  | some _ => some (([] : List String), qpairs)
  | none =>
    match (s.queryFields.map SField.name).mapM (fun n => qpairs.lookup n) with
    | some qs => some (qs, ([] : List (String × String)))
    | none => none

/-- The header-field part of the generated decoders: each declared header
field is looked up by name (failing when absent). -/
def decodeHeaderPart (s : Schema) (headers : List (String × String)) :
    Option (List String) :=
  (s.headerFields.map SField.name).mapM (fun n => headers.lookup n)

/-- Incoming-request decoder (`TryFrom<http::Request<Vec<u8>>>` for the
incoming request type).  The outer `Option` models definedness: `none` is the
out-of-bounds byte slice in `extract_request_path` (only reachable when the
schema has path fields and the URI path is empty). -/
def decodeRequest (s : Schema) (meta : Metadata) (req : HttpRequest) :
    Option (Except FromHttpRequestError ReqValue) :=
  if s.hasPathFields && (uriPathOf req.uri).data.isEmpty then
    none
  else
    some
      (match decodeQueryPart s (parseQueryString (uriQueryOf req.uri)) with
      | none => Except.error FromHttpRequestError.deserialization
      | some (queryVals, queryMapVal) =>
        match decodeHeaderPart s req.headers with
        | none => Except.error FromHttpRequestError.deserialization
        | some headerVals =>
          Except.ok
            { pathVals := decodePathPart s meta (uriPathOf req.uri)
              queryVals := queryVals
              queryMapVal := queryMapVal
              headerVals := headerVals
              bodyVals := (decodeBodyPart s req.body).1
              newtypeVal := (decodeBodyPart s req.body).2 })

/-- Outgoing-response encoder (`TryFrom<Response>` for
`http::Response<Vec<u8>>`): status 200 (the builder default), a JSON
content-type header first, then the declared header fields, and the JSON body
framing convention.  Header values are already valid in this model, so the
encoder cannot fail. -/
def encodeResponse (s : Schema) (v : RespValue) : HttpResponse :=
  { status := 200
    headers := ("content-type", "application/json")
        :: (s.headerFields.map SField.name).zip v.headerVals
    body := buildBodyJson s.bodyFields s.newtypeBodyField v.bodyVals v.newtypeVal }

/-- Incoming-response decoder (`TryFrom<http::Response<Vec<u8>>>` for
`Response`), parameterized by the resolved error type's decoder
(`<Error as EndpointError>::try_from_response`, modelled from the spec as a
function that may fail): status `< 400` decodes headers and body into a
success value; otherwise the error decoder's success is wrapped as
`ServerError::Known` and its failure as `ServerError::Unknown`, preserving
the original response. -/
def decodeResponse {E : Type} (s : Schema) (errDec : HttpResponse → Option E)
    (resp : HttpResponse) : Except (FromHttpResponseError E) RespValue :=
  if resp.status < 400 then
    match decodeHeaderPart s resp.headers with
    | none => Except.error FromHttpResponseError.deserialization
    | some headerVals =>
      Except.ok
        { headerVals := headerVals
          bodyVals := (decodeBodyPart s resp.body).1
          newtypeVal := (decodeBodyPart s resp.body).2 }
  else
    match errDec resp with
    | some e => Except.error (FromHttpResponseError.http (ServerError.known e))
    | none => Except.error (FromHttpResponseError.http (ServerError.unknown resp))

/-! ### `Api::parse` (schema assembly and validation) -/

/-- The result of processing the macro, as far as this model needs it. -/
structure Api where
  metadata : Metadata
  request : Schema
  response : Schema
  errorTy : String
deriving DecidableEq

/-- The trailing tokens of the macro input where an `error: Type` clause may
sit: absent, present but malformed (any input on which `ErrorType`'s parser
fails), or well-formed with a type. -/
inductive ErrorClauseInput where
  | absent : ErrorClauseInput
  | malformed : ErrorClauseInput
  | wellFormed (ty : String) : ErrorClauseInput
deriving DecidableEq

/-- Model of `impl Parse for ErrorType`: parses the `error` keyword, a colon and a
type, failing on anything else. -/
def parseErrorType : ErrorClauseInput → Except Unit String
  | ErrorClauseInput.wellFormed ty => Except.ok ty
  | _ => Except.error ()

/-- The canonical empty-error marker type used when no error clause parses. -/
def voidErrorTy : String := "ruma_api::error::Void"

/-- Model of `impl Parse for Api`: resolves the error type (falling back to `Void`
when the `ErrorType` parse fails), then rejects `GET` endpoints with body
fields, combining one error per offending field (every `body` field, then the
`newtype_body` field).  The combined diagnostic is modelled as the list of
offending field names. -/
def apiParse (metadata : Metadata) (request : Schema) (response : Schema)
    (errorInput : ErrorClauseInput) : Except (List String) Api :=
  if metadata.method == "GET"
      && (request.hasBodyFields || request.newtypeBodyField.isSome) then
    Except.error
      ((request.bodyFields ++ request.newtypeBodyField.toList).map SField.name)
  else
    Except.ok
      { metadata := metadata, request := request, response := response
        errorTy :=
          match parseErrorType errorInput with
          | Except.ok ty => ty
          | Except.error _ => voidErrorTy }

/-- The capability-marker impls emitted for one endpoint.  `api.rs`
(`non_auth_endpoint_impls`, lines 241-251) can emit `OutgoingNonAuthRequest`
for the `Request` type and `IncomingNonAuthRequest` for the incoming request
type (`IncomingRequest`, or `Request` itself when it has no lifetimes); the
generated output never contains any such marker on the `Response` type,
recorded here as a `responseMarker` component that is never set. -/
structure NonAuthImpls where
  outgoingRequestMarker : Bool
  incomingRequestMarker : Bool
  responseMarker : Bool
deriving DecidableEq

/-- The unauthenticated-endpoint capability markers (`api.rs`,
`non_auth_endpoint_impls`): `OutgoingNonAuthRequest` on the request type and
`IncomingNonAuthRequest` on the incoming request type, emitted only when the
authentication scheme is `None`; no marker is ever emitted on the response
type. -/
def nonAuthEndpointImpls (authentication : String) : NonAuthImpls :=
  if authentication != "None" then ⟨false, false, false⟩
  else ⟨true, true, false⟩


/-! ### Well-formedness of schemas and values -/

/-- A string free of the URI metacharacters that the (escaping-free) wire
model cannot round-trip through path and query parsing. -/
def UriClean (x : String) : Prop :=
  '/' ∉ x.data ∧ '?' ∉ x.data ∧ '&' ∉ x.data ∧ '=' ∉ x.data

instance (x : String) : Decidable (UriClean x) := by
  unfold UriClean
  infer_instance

/-- Well-formedness of an endpoint definition, relative to the segments
`tsegs` of its path template: the template is `/`-separated starting with a
leading slash, its segments are clean, its placeholder count matches the
path-field count, and the schema satisfies the spec's invariants (unique
header/body/query names, `query_map` exclusive with named query fields,
`newtype_body` exclusive with `body` fields). -/
structure SchemaOK (s : Schema) (meta : Metadata) (tsegs : List String) : Prop where
  splitPath : splitSlash meta.path = "" :: tsegs
  cleanSegs : ∀ t ∈ tsegs, UriClean t
  placeholderCount :
    (tsegs.filter (fun t => isPlaceholder t)).length = s.pathFields.length
  queryNodup : (s.queryFields.map SField.name).Nodup
  queryNamesClean : ∀ f ∈ s.queryFields, UriClean f.name
  headerNodup : (s.headerFields.map SField.name).Nodup
  bodyNodup : (s.bodyFields.map SField.name).Nodup
  queryExcl : s.queryMapField.isSome → s.queryFields = []
  bodyExcl : s.newtypeBodyField.isSome → s.bodyFields = []

/-- Well-formedness of a `Request` value against its schema: each component
list matches its field list in length, and the components of absent
locations are pinned to their defaults. -/
structure ReqWF (s : Schema) (v : ReqValue) : Prop where
  pathLen : v.pathVals.length = s.pathFields.length
  queryLen : s.queryMapField = none → v.queryVals.length = s.queryFields.length
  queryMapNil : s.queryMapField = none → v.queryMapVal = []
  queryNil : s.queryMapField.isSome → v.queryVals = []
  headerLen : v.headerVals.length = s.headerFields.length
  ntSome : s.newtypeBodyField.isSome → v.newtypeVal.isSome ∧ v.bodyVals = []
  ntNone : s.newtypeBodyField = none → v.newtypeVal = none
  bodyLen : s.newtypeBodyField = none → v.bodyVals.length = s.bodyFields.length

/-- Cleanliness of the string payloads of a `Request` value (the spec leaves
the escaping policy open, so the round-trip is stated for payloads free of
the URI separator characters). -/
structure ValClean (v : ReqValue) : Prop where
  pathClean : ∀ x ∈ v.pathVals, UriClean x
  queryClean : ∀ x ∈ v.queryVals, UriClean x
  mapClean : ∀ p ∈ v.queryMapVal, UriClean p.1 ∧ UriClean p.2

/-- Well-formedness of a response schema: unique header and body names, the
body exclusivity invariant, and no header field shadowing the generated
`content-type` header. -/
structure RespSchemaOK (rs : Schema) : Prop where
  headerNodup : (rs.headerFields.map SField.name).Nodup
  bodyNodup : (rs.bodyFields.map SField.name).Nodup
  bodyExcl : rs.newtypeBodyField.isSome → rs.bodyFields = []
  noContentType : ∀ f ∈ rs.headerFields, f.name ≠ "content-type"

/-- Well-formedness of a `Response` value against its schema. -/
structure RespWF (rs : Schema) (w : RespValue) : Prop where
  headerLen : w.headerVals.length = rs.headerFields.length
  ntSome : rs.newtypeBodyField.isSome → w.newtypeVal.isSome ∧ w.bodyVals = []
  ntNone : rs.newtypeBodyField = none → w.newtypeVal = none
  bodyLen : rs.newtypeBodyField = none → w.bodyVals.length = rs.bodyFields.length

/-! ### Split/join inverse lemmas -/

theorem joinSep_cons_cons (sep x y : String) (ys : List String) :
    joinSep sep (x :: y :: ys) = x ++ sep ++ joinSep sep (y :: ys) := rfl

theorem splitOnP_joinSep (sep : String) (c : Char) (hsc : sep.data = [c]) :
    ∀ (parts : List String), parts ≠ [] → (∀ p ∈ parts, c ∉ p.data) →
    List.splitOnP (fun x => x == c) (joinSep sep parts).data = parts.map String.data := by
  intro parts
  induction parts with
  | nil => intro h; exact absurd rfl h
  | cons p ps ih =>
    intro _ hcl
    cases ps with
    | nil =>
      show List.splitOnP (fun x => x == c) p.data = [p.data]
      refine List.splitOnP_eq_single (fun x => x == c) p.data (fun x hx hbeq => ?_)
      exact hcl p (List.mem_singleton_self p) ((beq_iff_eq.mp hbeq) ▸ hx)
    | cons q qs =>
      have hdata : (joinSep sep (p :: q :: qs)).data
          = p.data ++ c :: (joinSep sep (q :: qs)).data := by
        rw [joinSep_cons_cons, String.data_append, String.data_append, hsc]
        simp
      rw [hdata,
        List.splitOnP_first (fun x => x == c) p.data
          (fun x hx hbeq =>
            hcl p (List.mem_cons_self p _) ((beq_iff_eq.mp hbeq) ▸ hx))
          c (by simp) _,
        ih (List.cons_ne_nil q qs) (fun x hx => hcl x (List.mem_cons_of_mem p hx))]
      rfl

theorem split_joinSep (sep : String) (c : Char) (hsc : sep.data = [c])
    (parts : List String) (hne : parts ≠ []) (hcl : ∀ p ∈ parts, c ∉ p.data) :
    (joinSep sep parts).split (fun x => x == c) = parts := by
  rw [String.split_of_valid, splitOnP_joinSep sep c hsc parts hne hcl, List.map_map]
  have hmk : (String.mk ∘ String.data) = id := by
    funext x
    cases x
    rfl
  rw [hmk, List.map_id]

theorem mem_joinSep_data (sep : String) (c : Char) :
    ∀ (parts : List String), c ∈ (joinSep sep parts).data →
      c ∈ sep.data ∨ ∃ p ∈ parts, c ∈ p.data := by
  intro parts
  induction parts with
  | nil => intro h; exact absurd h (List.not_mem_nil c)
  | cons p ps ih =>
    intro h
    cases ps with
    | nil => exact Or.inr ⟨p, List.mem_singleton_self p, h⟩
    | cons q qs =>
      rw [joinSep_cons_cons, String.data_append, String.data_append] at h
      rcases List.mem_append.mp h with h1 | h2
      · rcases List.mem_append.mp h1 with h3 | h4
        · exact Or.inr ⟨p, List.mem_cons_self p _, h3⟩
        · exact Or.inl h4
      · rcases ih h2 with h5 | ⟨x, hx, hcx⟩
        · exact Or.inl h5
        · exact Or.inr ⟨x, List.mem_cons_of_mem p hx, hcx⟩

theorem takeWhile_append_all {α : Type} (p : α → Bool) (l₁ l₂ : List α)
    (h : ∀ x ∈ l₁, p x) :
    (l₁ ++ l₂).takeWhile p = l₁ ++ l₂.takeWhile p := by
  induction l₁ with
  | nil => simp
  | cons a as ih =>
    simp [List.takeWhile_cons, h a (List.mem_cons_self a as),
      ih (fun x hx => h x (List.mem_cons_of_mem a hx))]

theorem dropWhile_append_all {α : Type} (p : α → Bool) (l₁ l₂ : List α)
    (h : ∀ x ∈ l₁, p x) :
    (l₁ ++ l₂).dropWhile p = l₂.dropWhile p := by
  induction l₁ with
  | nil => simp
  | cons a as ih =>
    simp [List.dropWhile_cons, h a (List.mem_cons_self a as),
      ih (fun x hx => h x (List.mem_cons_of_mem a hx))]

/-- Splitting the generated URI back into path and query parts. -/
theorem uriSplit_append (a b : String) (ha : '?' ∉ a.data)
    (hb : b.data = [] ∨ ∃ r, b.data = '?' :: r) :
    uriPathOf (a ++ b) = a ∧ uriQueryOf (a ++ b) = String.mk (b.data.drop 1) := by
  have hall : ∀ x ∈ a.data, (x != '?') = true := by
    intro x hx
    simp only [bne_iff_ne, ne_eq]
    intro hq
    exact ha (hq ▸ hx)
  have hbtake : b.data.takeWhile (fun c => c != '?') = [] := by
    rcases hb with h | ⟨r, h⟩ <;> rw [h]
    · rfl
    · rw [List.takeWhile_cons]
      simp
  have hbdrop : b.data.dropWhile (fun c => c != '?') = b.data := by
    rcases hb with h | ⟨r, h⟩ <;> rw [h]
    · rfl
    · rw [List.dropWhile_cons]
      simp
  constructor
  · unfold uriPathOf
    rw [String.data_append, takeWhile_append_all _ _ _ hall, hbtake, List.append_nil]
  · unfold uriQueryOf
    rw [String.data_append, dropWhile_append_all _ _ _ hall, hbdrop]

/-! ### Query round-trip lemmas -/

theorem parseQueryKv_append (k v : String) (hk : '=' ∉ k.data) (hv : '=' ∉ v.data) :
    parseQueryKv (k ++ "=" ++ v) = (k, v) := by
  have hdata : (k ++ "=" ++ v).data = k.data ++ '=' :: v.data := by
    rw [String.data_append, String.data_append]
    simp
  have h1 : List.splitOnP (fun c => c == '=') (k.data ++ '=' :: v.data)
      = k.data :: List.splitOnP (fun c => c == '=') v.data :=
    List.splitOnP_first (fun c => c == '=') k.data
      (fun x hx hbeq => hk ((beq_iff_eq.mp hbeq) ▸ hx)) '=' (by simp) v.data
  have h2 : List.splitOnP (fun c => c == '=') v.data = [v.data] :=
    List.splitOnP_eq_single (fun c => c == '=') v.data
      (fun x hx hbeq => hv ((beq_iff_eq.mp hbeq) ▸ hx))
  have hsplit : (k ++ "=" ++ v).split (fun c => c == '=') = [k, v] := by
    rw [String.split_of_valid, hdata, h1, h2]
    show [String.mk k.data, String.mk v.data] = [k, v]
    cases k
    cases v
    rfl
  unfold parseQueryKv
  rw [hsplit]
  rfl

/-! ### Query-string round-trip -/

theorem joinSep_head_data_ne_nil (sep x : String) (xs : List String)
    (hx : x.data ≠ []) : (joinSep sep (x :: xs)).data ≠ [] := by
  cases xs with
  | nil => exact hx
  | cons y ys =>
    rw [joinSep_cons_cons, String.data_append, String.data_append]
    intro h
    rcases List.append_eq_nil.mp h with ⟨h1, _⟩
    rcases List.append_eq_nil.mp h1 with ⟨h2, _⟩
    exact hx h2

theorem kv_render_data (k v : String) :
    (k ++ "=" ++ v).data = k.data ++ '=' :: v.data := by
  rw [String.data_append, String.data_append]
  simp

theorem parseQueryString_joinSep (pairs : List (String × String))
    (hne : pairs ≠ []) (hcl : ∀ p ∈ pairs, UriClean p.1 ∧ UriClean p.2) :
    parseQueryString (joinSep "&" (pairs.map (fun p => p.1 ++ "=" ++ p.2))) = pairs := by
  have hmapne : pairs.map (fun p => p.1 ++ "=" ++ p.2) ≠ [] := by
    intro h
    exact hne (List.map_eq_nil_iff.mp h)
  have hclparts : ∀ x ∈ pairs.map (fun p => p.1 ++ "=" ++ p.2), '&' ∉ x.data := by
    intro x hx
    rcases List.mem_map.mp hx with ⟨p, hp, hpx⟩
    rw [← hpx, kv_render_data]
    intro hmem
    rcases List.mem_append.mp hmem with h1 | h2
    · exact (hcl p hp).1.2.2.1 h1
    · rcases List.mem_cons.mp h2 with h3 | h4
      · cases h3
      · exact (hcl p hp).2.2.2.1 h4
  have hjne : (joinSep "&" (pairs.map (fun p => p.1 ++ "=" ++ p.2))).data ≠ [] := by
    cases hp : pairs with
    | nil => exact absurd hp hne
    | cons p ps =>
      rw [List.map_cons]
      apply joinSep_head_data_ne_nil
      rw [kv_render_data]
      exact List.append_ne_nil_of_right_ne_nil _ (List.cons_ne_nil _ _)
  unfold parseQueryString
  rw [if_neg (by simp [List.isEmpty_iff, hjne]),
    split_joinSep "&" '&' rfl _ hmapne hclparts, List.map_map]
  have : ∀ p ∈ pairs, (parseQueryKv ∘ fun p => p.1 ++ "=" ++ p.2) p = id p := by
    intro p hp
    show parseQueryKv (p.1 ++ "=" ++ p.2) = p
    rw [parseQueryKv_append p.1 p.2 (hcl p hp).1.2.2.2 (hcl p hp).2.2.2.2]
  rw [List.map_congr_left this, List.map_id]

/-! ### Header and query lookup round-trip -/

theorem lookup_cons_self {β : Type} (k : String) (b : β) (l : List (String × β)) :
    ((k, b) :: l).lookup k = some b := by
  simp [List.lookup]

theorem lookup_cons_ne {β : Type} (k a : String) (b : β) (l : List (String × β))
    (h : k ≠ a) : ((a, b) :: l).lookup k = l.lookup k := by
  simp only [List.lookup]
  rw [beq_eq_false_iff_ne.mpr h]

theorem lookup_skip_pre {β : Type} (k : String) (pre l : List (String × β))
    (h : ∀ p ∈ pre, k ≠ p.1) : (pre ++ l).lookup k = l.lookup k := by
  induction pre with
  | nil => rfl
  | cons a as ih =>
    rw [List.cons_append]
    cases a with
    | mk a1 a2 =>
      rw [lookup_cons_ne k a1 a2 _ (h (a1, a2) (List.mem_cons_self _ _))]
      exact ih (fun p hp => h p (List.mem_cons_of_mem _ hp))

theorem lookup_eq_none_of_keys_not_mem {β : Type} (k : String)
    (l : List (String × β)) (h : ∀ p ∈ l, k ≠ p.1) : l.lookup k = none := by
  induction l with
  | nil => rfl
  | cons a as ih =>
    cases a with
    | mk a1 a2 =>
      rw [lookup_cons_ne k a1 a2 _ (h (a1, a2) (List.mem_cons_self _ _))]
      exact ih (fun p hp => h p (List.mem_cons_of_mem _ hp))

theorem mapM_option_congr {α β : Type} (f g : α → Option β) (l : List α)
    (h : ∀ a ∈ l, f a = g a) : l.mapM f = l.mapM g := by
  induction l with
  | nil => rfl
  | cons a as ih =>
    rw [List.mapM_cons, List.mapM_cons, h a (List.mem_cons_self a as),
      ih (fun x hx => h x (List.mem_cons_of_mem a hx))]

theorem map_congr_mem {α β : Type} (f g : α → β) (l : List α)
    (h : ∀ a ∈ l, f a = g a) : l.map f = l.map g := by
  induction l with
  | nil => rfl
  | cons a as ih =>
    rw [List.map_cons, List.map_cons, h a (List.mem_cons_self a as),
      ih (fun x hx => h x (List.mem_cons_of_mem a hx))]

theorem mapM_lookup_zip_aux :
    ∀ (names vals : List String) (post : List (String × String)),
    names.Nodup → names.length = vals.length →
    names.mapM (fun n => (names.zip vals ++ post).lookup n) = some vals := by
  intro names
  induction names with
  | nil =>
    intro vals post _ hlen
    cases vals with
    | nil => rfl
    | cons v vs => simp at hlen
  | cons n ns ih =>
    intro vals post hnd hlen
    cases vals with
    | nil => simp at hlen
    | cons v vs =>
      rw [List.nodup_cons] at hnd
      rw [List.zip_cons_cons, List.cons_append, List.mapM_cons]
      rw [mapM_option_congr
            (fun m => (((n, v) :: (ns.zip vs ++ post))).lookup m)
            (fun m => (ns.zip vs ++ post).lookup m) ns
            (fun m hm => lookup_cons_ne m n v _ (fun he => hnd.1 (he ▸ hm)))]
      rw [ih vs post hnd.2 (Nat.succ.inj (by simpa using hlen))]
      rw [lookup_cons_self]
      rfl

theorem mapM_lookup_zip (pre : List (String × String)) (names vals : List String)
    (post : List (String × String)) (hnd : names.Nodup)
    (hlen : names.length = vals.length)
    (hpre : ∀ n ∈ names, ∀ p ∈ pre, n ≠ p.1) :
    names.mapM (fun n => (pre ++ (names.zip vals ++ post)).lookup n) = some vals := by
  rw [mapM_option_congr _ (fun n => (names.zip vals ++ post).lookup n) _
      (fun n hn => lookup_skip_pre n pre _ (hpre n hn))]
  exact mapM_lookup_zip_aux names vals post hnd hlen

/-! ### Body round-trip -/

theorem assembleBody_cons_some (n : String) (j : Json) (ns : List String)
    (vs : List (Option Json)) :
    assembleBody (n :: ns) (some j :: vs) = (n, j) :: assembleBody ns vs := rfl

theorem assembleBody_cons_none (n : String) (ns : List String)
    (vs : List (Option Json)) :
    assembleBody (n :: ns) (none :: vs) = assembleBody ns vs := rfl

theorem assembleBody_keys_mem :
    ∀ (names : List String) (vals : List (Option Json)) (p : String × Json),
    p ∈ assembleBody names vals → p.1 ∈ names := by
  intro names
  induction names with
  | nil => intro vals p hp; exact absurd hp (List.not_mem_nil p)
  | cons n ns ih =>
    intro vals p hp
    cases vals with
    | nil => exact absurd hp (List.not_mem_nil p)
    | cons v? vs =>
      cases v? with
      | some j =>
        rw [assembleBody_cons_some] at hp
        rcases List.mem_cons.mp hp with h | h
        · rw [h]
          exact List.mem_cons_self n ns
        · exact List.mem_cons_of_mem n (ih vs p h)
      | none =>
        rw [assembleBody_cons_none] at hp
        exact List.mem_cons_of_mem n (ih vs p hp)

theorem assembleBody_nil_vals :
    ∀ (names : List String) (vals : List (Option Json)),
    names.length = vals.length → assembleBody names vals = [] →
    vals = names.map (fun _ => none) := by
  intro names
  induction names with
  | nil =>
    intro vals hlen _
    cases vals with
    | nil => rfl
    | cons v vs => simp at hlen
  | cons n ns ih =>
    intro vals hlen hasm
    cases vals with
    | nil => simp at hlen
    | cons v? vs =>
      cases v? with
      | some j =>
        rw [assembleBody_cons_some] at hasm
        cases hasm
      | none =>
        rw [assembleBody_cons_none] at hasm
        rw [List.map_cons, ih vs (Nat.succ.inj (by simpa using hlen)) hasm]

theorem map_lookup_assembleBody :
    ∀ (names : List String) (vals : List (Option Json)),
    names.Nodup → names.length = vals.length →
    names.map (fun n => (assembleBody names vals).lookup n) = vals := by
  intro names
  induction names with
  | nil =>
    intro vals _ hlen
    cases vals with
    | nil => rfl
    | cons v vs => simp at hlen
  | cons n ns ih =>
    intro vals hnd hlen
    cases vals with
    | nil => simp at hlen
    | cons v? vs =>
      rw [List.nodup_cons] at hnd
      cases v? with
      | some j =>
        rw [assembleBody_cons_some, List.map_cons, lookup_cons_self]
        rw [map_congr_mem
              (fun m => (((n, j) :: assembleBody ns vs)).lookup m)
              (fun m => (assembleBody ns vs).lookup m) ns
              (fun m hm => lookup_cons_ne m n j _ (fun he => hnd.1 (he ▸ hm)))]
        rw [ih vs hnd.2 (Nat.succ.inj (by simpa using hlen))]
      | none =>
        rw [assembleBody_cons_none, List.map_cons]
        rw [lookup_eq_none_of_keys_not_mem n (assembleBody ns vs)
              (fun p hp he => hnd.1 (he ▸ assembleBody_keys_mem ns vs p hp))]
        rw [ih vs hnd.2 (Nat.succ.inj (by simpa using hlen))]

/-- The JSON body framing round-trips: decoding the body built from a
well-formed value recovers its body fields and newtype-body field. -/
theorem decodeBodyPart_buildBodyJson (s : Schema)
    (vals : List (Option Json)) (ntVal : Option Json)
    (hnd : (s.bodyFields.map SField.name).Nodup)
    (hnt : s.newtypeBodyField.isSome → ntVal.isSome ∧ vals = [])
    (hntn : s.newtypeBodyField = none → ntVal = none)
    (hlen : s.newtypeBodyField = none → vals.length = s.bodyFields.length) :
    decodeBodyPart s (buildBodyJson s.bodyFields s.newtypeBodyField vals ntVal)
      = (vals, ntVal) := by
  unfold decodeBodyPart buildBodyJson
  cases hnb : s.newtypeBodyField with
  | some f =>
    rcases hnt (by rw [hnb]; rfl) with ⟨hsome, hvals⟩
    rcases Option.isSome_iff_exists.mp hsome with ⟨j, hj⟩
    rw [hj, hvals]
    rfl
  | none =>
    have hvn := hntn hnb
    have hvl := hlen hnb
    by_cases hbf : s.bodyFields.isEmpty
    · rw [if_pos hbf, if_pos hbf, hvn]
      have : s.bodyFields = [] := List.isEmpty_iff.mp hbf
      rw [this] at hvl
      rw [List.length_nil] at hvl
      rw [List.length_eq_zero.mp hvl]
    · rw [if_neg hbf, if_neg hbf, hvn]
      by_cases hasm : (assembleBody (s.bodyFields.map SField.name) vals).isEmpty
      · rw [if_pos hasm]
        have hveq := assembleBody_nil_vals (s.bodyFields.map SField.name) vals
          (by rw [List.length_map]; exact hvl.symm) (List.isEmpty_iff.mp hasm)
        have : ∀ n ∈ s.bodyFields.map SField.name,
            jsonLookupObj n (extractBodyJson none) = (fun _ => (none : Option Json)) n := by
          intro n _
          rfl
        rw [map_congr_mem _ _ _ this, ← hveq]
      · rw [if_neg hasm]
        have : ∀ n ∈ s.bodyFields.map SField.name,
            jsonLookupObj n (extractBodyJson
              (some (Json.obj (assembleBody (s.bodyFields.map SField.name) vals))))
              = (assembleBody (s.bodyFields.map SField.name) vals).lookup n := by
          intro n _
          rfl
        rw [map_congr_mem _ _ _ this,
          map_lookup_assembleBody (s.bodyFields.map SField.name) vals hnd
            (by rw [List.length_map]; exact hvl.symm)]


/-! ### Path template round-trip -/

theorem substSegments_cons_pl (seg : String) (rest : List String)
    (v : String) (vs : List String) (h : isPlaceholder seg = true) :
    substSegments (seg :: rest) (v :: vs) = v :: substSegments rest vs := by
  simp [substSegments, h]

theorem substSegments_cons_pl_nil (seg : String) (rest : List String)
    (h : isPlaceholder seg = true) :
    substSegments (seg :: rest) [] = seg :: substSegments rest [] := by
  simp [substSegments, h]

theorem substSegments_cons_npl (seg : String) (rest : List String)
    (vals : List String) (h : isPlaceholder seg = false) :
    substSegments (seg :: rest) vals = seg :: substSegments rest vals := by
  simp [substSegments, h]

theorem substSegments_ne_nil (ts vals : List String) (h : ts ≠ []) :
    substSegments ts vals ≠ [] := by
  cases ts with
  | nil => exact absurd rfl h
  | cons seg rest =>
    by_cases hpl : isPlaceholder seg = true
    · cases vals with
      | nil =>
        rw [substSegments_cons_pl_nil seg rest hpl]
        exact List.cons_ne_nil _ _
      | cons x xs =>
        rw [substSegments_cons_pl seg rest x xs hpl]
        exact List.cons_ne_nil _ _
    · rw [substSegments_cons_npl seg rest vals (Bool.not_eq_true _ ▸ hpl)]
      exact List.cons_ne_nil _ _

theorem substSegments_mem :
    ∀ (ts vals : List String) (x : String), x ∈ substSegments ts vals →
      x ∈ ts ∨ x ∈ vals := by
  intro ts
  induction ts with
  | nil => intro vals x hx; exact absurd hx (List.not_mem_nil x)
  | cons seg rest ih =>
    intro vals x hx
    by_cases hpl : isPlaceholder seg = true
    · cases vals with
      | nil =>
        rw [substSegments_cons_pl_nil seg rest hpl] at hx
        rcases List.mem_cons.mp hx with h | h
        · exact Or.inl (h ▸ List.mem_cons_self seg rest)
        · rcases ih [] x h with h2 | h2
          · exact Or.inl (List.mem_cons_of_mem seg h2)
          · exact Or.inr h2
      | cons y ys =>
        rw [substSegments_cons_pl seg rest y ys hpl] at hx
        rcases List.mem_cons.mp hx with h | h
        · exact Or.inr (h ▸ List.mem_cons_self y ys)
        · rcases ih ys x h with h2 | h2
          · exact Or.inl (List.mem_cons_of_mem seg h2)
          · exact Or.inr (List.mem_cons_of_mem y h2)
    · rw [substSegments_cons_npl seg rest vals (Bool.not_eq_true _ ▸ hpl)] at hx
      rcases List.mem_cons.mp hx with h | h
      · exact Or.inl (h ▸ List.mem_cons_self seg rest)
      · rcases ih vals x h with h2 | h2
        · exact Or.inl (List.mem_cons_of_mem seg h2)
        · exact Or.inr h2

theorem extractAtPlaceholders_cons_pl (t : String) (ts : List String)
    (sg : String) (sgs : List String) (h : isPlaceholder t = true) :
    extractAtPlaceholders (t :: ts) (sg :: sgs)
      = sg :: extractAtPlaceholders ts sgs := by
  simp [extractAtPlaceholders, h]

theorem extractAtPlaceholders_cons_npl (t : String) (ts : List String)
    (sg : String) (sgs : List String) (h : isPlaceholder t = false) :
    extractAtPlaceholders (t :: ts) (sg :: sgs)
      = extractAtPlaceholders ts sgs := by
  simp [extractAtPlaceholders, h]

theorem extractAtPlaceholders_substSegments :
    ∀ (ts vals : List String),
    (ts.filter (fun t => isPlaceholder t)).length = vals.length →
    extractAtPlaceholders ts (substSegments ts vals) = vals := by
  intro ts
  induction ts with
  | nil =>
    intro vals hcount
    cases vals with
    | nil => rfl
    | cons v vs => simp at hcount
  | cons seg rest ih =>
    intro vals hcount
    by_cases hpl : isPlaceholder seg = true
    · rw [List.filter_cons_of_pos hpl] at hcount
      cases vals with
      | nil => simp at hcount
      | cons v vs =>
        rw [substSegments_cons_pl seg rest v vs hpl,
          extractAtPlaceholders_cons_pl seg rest v _ hpl,
          ih vs (Nat.succ.inj (by simpa using hcount))]
    · have hplf : isPlaceholder seg = false := Bool.not_eq_true _ ▸ hpl
      rw [List.filter_cons_of_neg (by simp [hplf])] at hcount
      rw [substSegments_cons_npl seg rest vals hplf,
        extractAtPlaceholders_cons_npl seg rest seg _ hplf]
      exact ih vals hcount

theorem requestPathString_shape (template : String) (tsegs : List String)
    (vals : List String)
    (hsplit : splitSlash template = "" :: tsegs)
    (hne : tsegs ≠ []) :
    requestPathString template vals
      = "/" ++ joinSep "/" (substSegments tsegs vals) := by
  unfold requestPathString
  rw [hsplit, substSegments_cons_npl "" tsegs vals rfl]
  cases h : substSegments tsegs vals with
  | nil => exact absurd h (substSegments_ne_nil tsegs vals hne)
  | cons x xs =>
    rw [joinSep_cons_cons]
    apply String.ext
    rw [String.data_append, String.data_append, String.data_append]
    rfl

/-! ### Query-string plumbing -/

theorem parseQueryString_buildQueryString (pairs : List (String × String))
    (hcl : ∀ p ∈ pairs, UriClean p.1 ∧ UriClean p.2) :
    parseQueryString (String.mk ((buildQueryString pairs).data.drop 1)) = pairs := by
  by_cases hp : pairs = []
  · rw [hp]
    rfl
  · unfold buildQueryString
    rw [if_neg (by simp [List.isEmpty_iff, hp]), String.data_append]
    have hq : ((("?" : String)).data
        ++ (joinSep "&" (pairs.map (fun p => p.1 ++ "=" ++ p.2))).data).drop 1
        = (joinSep "&" (pairs.map (fun p => p.1 ++ "=" ++ p.2))).data := rfl
    rw [hq]
    have hmk : String.mk (joinSep "&" (pairs.map (fun p => p.1 ++ "=" ++ p.2))).data
        = joinSep "&" (pairs.map (fun p => p.1 ++ "=" ++ p.2)) := by
      cases hJ : joinSep "&" (pairs.map (fun p => p.1 ++ "=" ++ p.2))
      rfl
    rw [hmk]
    exact parseQueryString_joinSep pairs hp hcl

theorem mapM_lookup_zip_simple (names vals : List String)
    (hnd : names.Nodup) (hlen : names.length = vals.length) :
    names.mapM (fun n => (names.zip vals).lookup n) = some vals := by
  have h := mapM_lookup_zip_aux names vals [] hnd hlen
  simp only [List.append_nil] at h
  exact h


/-! ### Round-trip of the generated codecs -/

theorem mk_data_eq (s : String) : String.mk s.data = s := by
  cases s
  rfl

theorem empty_append_str (s : String) : "" ++ s = s := by
  apply String.ext
  rw [String.data_append]
  rfl

theorem stripTrailingSlash_empty : stripTrailingSlash "" = "" := rfl

/-- Decoding an encoded response recovers the original value. -/
theorem decodeResponse_encodeResponse {E : Type} (rs : Schema)
    (errDec : HttpResponse → Option E) (w : RespValue)
    (hrs : RespSchemaOK rs) (hw : RespWF rs w) :
    decodeResponse rs errDec (encodeResponse rs w) = Except.ok w := by
  obtain ⟨wh, wb, wn⟩ := w
  have hstat : (encodeResponse rs ⟨wh, wb, wn⟩).status < 400 := by
    show (200 : Nat) < 400
    decide
  have hhd : (encodeResponse rs ⟨wh, wb, wn⟩).headers
      = ("content-type", "application/json")
        :: (rs.headerFields.map SField.name).zip wh := rfl
  have hbd : (encodeResponse rs ⟨wh, wb, wn⟩).body
      = buildBodyJson rs.bodyFields rs.newtypeBodyField wb wn := rfl
  have hrh : decodeHeaderPart rs
      (("content-type", "application/json")
        :: (rs.headerFields.map SField.name).zip wh) = some wh := by
    unfold decodeHeaderPart
    have hpre : ∀ n ∈ rs.headerFields.map SField.name,
        ∀ p ∈ [(("content-type" : String), ("application/json" : String))], n ≠ p.1 := by
      intro n hn p hp
      rcases List.mem_map.mp hn with ⟨f, hf, hfn⟩
      rcases List.mem_singleton.mp hp with rfl
      exact hfn ▸ hrs.noContentType f hf
    have h := mapM_lookup_zip [("content-type", "application/json")]
      (rs.headerFields.map SField.name) wh [] hrs.headerNodup
      (by rw [List.length_map]; exact hw.headerLen.symm) hpre
    simp only [List.append_nil, List.singleton_append] at h
    exact h
  have hrb : decodeBodyPart rs (buildBodyJson rs.bodyFields rs.newtypeBodyField wb wn)
      = (wb, wn) :=
    decodeBodyPart_buildBodyJson rs wb wn hrs.bodyNodup
      (fun h => hw.ntSome h) hw.ntNone (fun h => hw.bodyLen h)
  unfold decodeResponse
  rw [if_pos hstat, hhd, hbd, hrh, hrb]


/-- Decoding the encoded query pairs recovers the query-field values. -/
theorem decodeQueryPart_encodeQueryPairs (s : Schema) (v : ReqValue)
    (hnd : (s.queryFields.map SField.name).Nodup) (hv : ReqWF s v) :
    decodeQueryPart s (encodeQueryPairs s v) = some (v.queryVals, v.queryMapVal) := by
  unfold decodeQueryPart encodeQueryPairs
  cases hqm : s.queryMapField with
  | some f =>
    show some (([] : List String), v.queryMapVal) = some (v.queryVals, v.queryMapVal)
    rw [hv.queryNil (by rw [hqm]; rfl)]
  | none =>
    show (match (s.queryFields.map SField.name).mapM
        (fun n => ((s.queryFields.map SField.name).zip v.queryVals).lookup n) with
      | some qs => some (qs, ([] : List (String × String)))
      | none => none) = some (v.queryVals, v.queryMapVal)
    rw [mapM_lookup_zip_simple (s.queryFields.map SField.name) v.queryVals hnd
        (by rw [List.length_map]; exact (hv.queryLen hqm).symm),
      hv.queryMapNil hqm]

/-- Decoding an encoded request recovers the original value. -/
theorem decodeRequest_encodeRequest (s : Schema) (meta : Metadata)
    (tsegs : List String) (v : ReqValue) (tok : Option String)
    (req : HttpRequest) (hs : SchemaOK s meta tsegs) (hv : ReqWF s v)
    (hc : ValClean v)
    (henc : encodeRequest s meta v "" tok = Except.ok req) :
    decodeRequest s meta req = some (Except.ok v) := by
  obtain ⟨vp, vq, vm, vh, vb, vn⟩ := v
  unfold encodeRequest at henc
  cases hah : authHeaders meta.authentication tok with
  | error e =>
    rw [hah] at henc
    cases henc
  | ok authHs =>
    rw [hah] at henc
    injection henc with henc2
    have hu : req.uri = requestPathString meta.path vp
        ++ buildQueryString (encodeQueryPairs s ⟨vp, vq, vm, vh, vb, vn⟩) := by
      rw [← henc2]
      show stripTrailingSlash "" ++ requestPathString meta.path vp
          ++ buildQueryString (encodeQueryPairs s ⟨vp, vq, vm, vh, vb, vn⟩) = _
      rw [stripTrailingSlash_empty, empty_append_str]
    have hh : req.headers
        = encodeHeaderPairs s ⟨vp, vq, vm, vh, vb, vn⟩ ++ authHs := by
      rw [← henc2]
    have hb : req.body
        = buildBodyJson s.bodyFields s.newtypeBodyField vb vn := by
      rw [← henc2]
    have hclP : '?' ∉ (requestPathString meta.path vp).data := by
      unfold requestPathString
      rw [hs.splitPath]
      intro hmem
      rcases mem_joinSep_data "/" '?' _ hmem with h | ⟨p, hp, hcp⟩
      · simp at h
      · rcases substSegments_mem _ _ _ hp with h1 | h2
        · rcases List.mem_cons.mp h1 with h3 | h4
          · rw [h3] at hcp
            exact absurd hcp (List.not_mem_nil '?')
          · exact (hs.cleanSegs p h4).2.1 hcp
        · exact (hc.pathClean p h2).2.1 hcp
    have hclq : ∀ p ∈ encodeQueryPairs s ⟨vp, vq, vm, vh, vb, vn⟩,
        UriClean p.1 ∧ UriClean p.2 := by
      intro p hp
      obtain ⟨p1, p2⟩ := p
      unfold encodeQueryPairs at hp
      cases hqm : s.queryMapField with
      | some f =>
        rw [hqm] at hp
        exact hc.mapClean (p1, p2) hp
      | none =>
        rw [hqm] at hp
        rcases List.of_mem_zip hp with ⟨h1, h2⟩
        rcases List.mem_map.mp h1 with ⟨f, hf, hfn⟩
        exact ⟨hfn ▸ hs.queryNamesClean f hf, hc.queryClean p2 h2⟩
    have hQ : (buildQueryString (encodeQueryPairs s ⟨vp, vq, vm, vh, vb, vn⟩)).data = []
        ∨ ∃ r, (buildQueryString (encodeQueryPairs s ⟨vp, vq, vm, vh, vb, vn⟩)).data
            = '?' :: r := by
      unfold buildQueryString
      by_cases hqp : (encodeQueryPairs s ⟨vp, vq, vm, vh, vb, vn⟩).isEmpty = true
      · rw [if_pos hqp]
        exact Or.inl rfl
      · rw [if_neg hqp]
        right
        refine ⟨(joinSep "&" ((encodeQueryPairs s ⟨vp, vq, vm, vh, vb, vn⟩).map
          (fun p => p.1 ++ "=" ++ p.2))).data, ?_⟩
        rw [String.data_append]
        rfl
    have hPQ := uriSplit_append (requestPathString meta.path vp)
      (buildQueryString (encodeQueryPairs s ⟨vp, vq, vm, vh, vb, vn⟩)) hclP hQ
    have hquery : decodeQueryPart s (parseQueryString (uriQueryOf req.uri))
        = some (vq, vm) := by
      rw [hu, hPQ.2, parseQueryString_buildQueryString _ hclq]
      exact decodeQueryPart_encodeQueryPairs s ⟨vp, vq, vm, vh, vb, vn⟩
        hs.queryNodup hv
    have hheader : decodeHeaderPart s req.headers = some vh := by
      rw [hh]
      unfold decodeHeaderPart encodeHeaderPairs
      exact mapM_lookup_zip_aux (s.headerFields.map SField.name) vh authHs
        hs.headerNodup (by rw [List.length_map]; exact hv.headerLen.symm)
    have hbody : decodeBodyPart s req.body = (vb, vn) := by
      rw [hb]
      exact decodeBodyPart_buildBodyJson s vb vn hs.bodyNodup
        (fun h => hv.ntSome h) hv.ntNone (fun h => hv.bodyLen h)
    by_cases hpf : s.hasPathFields = true
    · have hpne : s.pathFields ≠ [] := by
        intro h
        unfold Schema.hasPathFields at hpf
        rw [h] at hpf
        simp at hpf
      have hne : tsegs ≠ [] := by
        intro h
        have hcount := hs.placeholderCount
        rw [h] at hcount
        simp only [List.filter_nil, List.length_nil] at hcount
        exact hpne (List.length_eq_zero.mp hcount.symm)
      have hclsub : ∀ x ∈ substSegments tsegs vp, '/' ∉ x.data := by
        intro x hx
        rcases substSegments_mem tsegs vp x hx with h1 | h2
        · exact (hs.cleanSegs x h1).1
        · exact (hc.pathClean x h2).1
      have hshape := requestPathString_shape meta.path tsegs vp hs.splitPath hne
      have hPdata : (requestPathString meta.path vp).data
          = '/' :: (joinSep "/" (substSegments tsegs vp)).data := by
        rw [hshape, String.data_append]
        rfl
      have hcond : (s.hasPathFields && (uriPathOf req.uri).data.isEmpty) = false := by
        rw [hu, hPQ.1, hPdata, hpf]
        rfl
      have hpath : decodePathPart s meta (uriPathOf req.uri) = vp := by
        rw [hu, hPQ.1]
        unfold decodePathPart
        rw [if_pos hpf]
        unfold parseRequestPath
        rw [hPdata, List.drop_succ_cons, List.drop_zero, mk_data_eq,
          split_joinSep "/" '/' rfl (substSegments tsegs vp)
            (substSegments_ne_nil tsegs vp hne) hclsub,
          hs.splitPath, List.tail_cons]
        exact extractAtPlaceholders_substSegments tsegs vp
          (hs.placeholderCount.trans hv.pathLen.symm)
      unfold decodeRequest
      rw [if_neg (by simp [hcond]), hquery, hheader, hpath, hbody]
    · have hpff : s.hasPathFields = false := by
        cases h2 : s.hasPathFields
        · rfl
        · exact absurd h2 hpf
      have hfields : s.pathFields = [] := by
        unfold Schema.hasPathFields at hpff
        cases hie : s.pathFields.isEmpty
        · rw [hie] at hpff
          exact absurd hpff (by decide)
        · exact List.isEmpty_iff.mp hie
      have hvp : vp = [] := by
        have hl := hv.pathLen
        rw [hfields] at hl
        exact List.length_eq_zero.mp (by simpa using hl)
      have hcond : (s.hasPathFields && (uriPathOf req.uri).data.isEmpty) = false := by
        rw [hpff]
        rfl
      have hpath : decodePathPart s meta (uriPathOf req.uri) = vp := by
        unfold decodePathPart
        rw [if_neg (by simp [hpff]), hvp]
      unfold decodeRequest
      rw [if_neg (by simp [hcond]), hquery, hheader, hpath, hbody]


/-! ### Theorems: validation, error handling, URI shape -/

/-- C3: for every endpoint definition whose HTTP method is GET and whose
request schema contains at least one `body` or `newtype_body` field, parsing
fails with a combined error that names every offending field (all `body`
fields followed by the `newtype_body` field), not only the first one. -/
theorem c3_get_with_body_names_all_offenders (metadata : Metadata)
    (request response : Schema) (errorInput : ErrorClauseInput)
    (hm : metadata.method = "GET")
    (hb : request.hasBodyFields = true ∨ request.newtypeBodyField.isSome = true) :
    apiParse metadata request response errorInput =
      Except.error
        ((request.bodyFields ++ request.newtypeBodyField.toList).map SField.name) ∧
    ∀ f ∈ request.bodyFields ++ request.newtypeBodyField.toList,
      f.name ∈ (request.bodyFields ++ request.newtypeBodyField.toList).map SField.name := by
  constructor
  · unfold apiParse
    have hcond : (metadata.method == "GET"
        && (request.hasBodyFields || request.newtypeBodyField.isSome)) = true := by
      rw [hm]
      rcases hb with h | h <;> simp [h]
    rw [hcond]
    simp
  · intro f hf
    exact List.mem_map_of_mem SField.name hf

/-- C3 witness: a concrete GET endpoint with one `body` field and one
`newtype_body` field is rejected with both field names in the diagnostic. -/
theorem c3_witness :
    apiParse
      { description := "d", method := "GET", name := "n", path := "/p",
        rateLimited := false, authentication := "None" }
      { fields := [⟨"flag", FieldLocation.body⟩, ⟨"data", FieldLocation.newtypeBody⟩] }
      { fields := [] } ErrorClauseInput.absent = Except.error ["flag", "data"] ∧
    "flag" ∈ ["flag", "data"] ∧ "data" ∈ ["flag", "data"] := by
  refine ⟨?_, by decide, by decide⟩
  have h := c3_get_with_body_names_all_offenders
    { description := "d", method := "GET", name := "n", path := "/p",
      rateLimited := false, authentication := "None" }
    { fields := [⟨"flag", FieldLocation.body⟩, ⟨"data", FieldLocation.newtypeBody⟩] }
    { fields := [] } ErrorClauseInput.absent rfl (Or.inl rfl)
  exact h.1

/-- C4: with authentication scheme `AccessToken`, encoding with no access
token fails with `IntoHttpError::NeedsAuthentication`, and encoding with
token `"abc123"` produces a request carrying the header
`Authorization: Bearer abc123`. -/
theorem c4_access_token_auth (s : Schema) (meta : Metadata) (v : ReqValue)
    (baseUrl : String) (ha : meta.authentication = "AccessToken") :
    encodeRequest s meta v baseUrl none = Except.error IntoHttpError.needsAuthentication ∧
    ∀ req, encodeRequest s meta v baseUrl (some "abc123") = Except.ok req →
      ("authorization", "Bearer abc123") ∈ req.headers := by
  constructor
  · unfold encodeRequest authHeaders
    rw [ha]
    simp
  · intro req h
    unfold encodeRequest authHeaders at h
    rw [ha] at h
    simp at h
    rw [← h]
    simp

/-- C4 witness. -/
theorem c4_witness :
    encodeRequest { fields := [] }
      { description := "d", method := "POST", name := "n", path := "/p",
        rateLimited := false, authentication := "AccessToken" }
      ⟨[], [], [], [], [], none⟩ "https://h" none =
        Except.error IntoHttpError.needsAuthentication := by
  exact (c4_access_token_auth _ _ _ _ rfl).1


/-- C2: the incoming-response decoder branches on the status code: below 400
it decodes headers and body without consulting the error decoder (yielding a
success value or a deserialization error, never a server error); at 400 and
above it runs the resolved error type's decoder, wrapping its success as the
known-server-error variant and its failure as the unknown-server-error
variant that preserves the original response — both as `Err` of
`FromHttpResponseError`. -/
theorem c2_response_error_branching {E : Type} (s : Schema)
    (errDec errDec' : HttpResponse → Option E) (resp : HttpResponse) :
    (resp.status < 400 →
      decodeResponse s errDec resp = decodeResponse s errDec' resp ∧
      ((∃ w, decodeResponse s errDec resp = Except.ok w) ∨
        decodeResponse s errDec resp =
          Except.error FromHttpResponseError.deserialization)) ∧
    (400 ≤ resp.status →
      (∀ e, errDec resp = some e →
        decodeResponse s errDec resp =
          Except.error (FromHttpResponseError.http (ServerError.known e))) ∧
      (errDec resp = none →
        decodeResponse s errDec resp =
          Except.error (FromHttpResponseError.http (ServerError.unknown resp)))) := by
  constructor
  · intro hlt
    constructor
    · unfold decodeResponse
      rw [if_pos hlt, if_pos hlt]
    · unfold decodeResponse
      rw [if_pos hlt]
      cases decodeHeaderPart s resp.headers with
      | none => exact Or.inr rfl
      | some headerVals => exact Or.inl ⟨_, rfl⟩
  · intro hge
    have hnlt : ¬ resp.status < 400 := Nat.not_lt.mpr hge
    constructor
    · intro e he
      unfold decodeResponse
      rw [if_neg hnlt, he]
    · intro he
      unfold decodeResponse
      rw [if_neg hnlt, he]

/-- C2 witness: a 404 response whose body the error decoder parses yields the
known-error variant with the decoded value; a 404 response with an
unparseable body yields the unknown-error variant preserving the whole
response. -/
theorem c2_witness :
    decodeResponse (E := Nat) { fields := [] }
      (fun r => match r.body with | some (Json.num n) => some n.toNat | _ => none)
      ⟨404, [], some (Json.num 7)⟩ =
      Except.error (FromHttpResponseError.http (ServerError.known 7)) ∧
    decodeResponse (E := Nat) { fields := [] }
      (fun r => match r.body with | some (Json.num n) => some n.toNat | _ => none)
      ⟨404, [], some (Json.str "oops")⟩ =
      Except.error (FromHttpResponseError.http
        (ServerError.unknown ⟨404, [], some (Json.str "oops")⟩)) := by
  constructor
  · exact ((c2_response_error_branching (E := Nat) { fields := [] }
      (fun r => match r.body with | some (Json.num n) => some n.toNat | _ => none)
      (fun r => match r.body with | some (Json.num n) => some n.toNat | _ => none)
      ⟨404, [], some (Json.num 7)⟩).2 (by decide)).1 7 rfl
  · exact ((c2_response_error_branching (E := Nat) { fields := [] }
      (fun r => match r.body with | some (Json.num n) => some n.toNat | _ => none)
      (fun r => match r.body with | some (Json.num n) => some n.toNat | _ => none)
      ⟨404, [], some (Json.str "oops")⟩).2 (by decide)).2 rfl

/-- C5: a completely empty wire body is treated as the empty JSON object
before deserialization, so an incoming request or (status < 400) response
with an empty body decodes every body field to its unset default. -/
theorem c5_empty_body_is_empty_object {E : Type} (s : Schema) (meta : Metadata)
    (req : HttpRequest) (resp : HttpResponse) (errDec : HttpResponse → Option E)
    (hreq : req.body = none) (hresp : resp.body = none) :
    extractBodyJson req.body = Json.obj [] ∧
    (∀ r, decodeRequest s meta req = some (Except.ok r) →
      ∀ x ∈ r.bodyVals, x = none) ∧
    (∀ w, decodeResponse s errDec resp = Except.ok w →
      ∀ x ∈ w.bodyVals, x = none) := by
  have hbody : ∀ x ∈ (decodeBodyPart s (none : Option Json)).1, x = none := by
    intro x hx
    unfold decodeBodyPart at hx
    cases hnb : s.newtypeBodyField with
    | some f =>
      rw [hnb] at hx
      exact absurd hx (List.not_mem_nil x)
    | none =>
      rw [hnb] at hx
      by_cases hbf : s.bodyFields.isEmpty
      · rw [if_pos hbf] at hx
        exact absurd hx (List.not_mem_nil x)
      · rw [if_neg hbf] at hx
        rcases List.mem_map.mp hx with ⟨n, _, hn⟩
        rw [← hn]
        rfl
  refine ⟨by rw [hreq]; rfl, ?_, ?_⟩
  · intro r hr x hx
    unfold decodeRequest at hr
    by_cases hcond : s.hasPathFields && (uriPathOf req.uri).data.isEmpty
    · rw [if_pos hcond] at hr; cases hr
    · rw [if_neg hcond] at hr
      simp only [Option.some.injEq] at hr
      have hbv : r.bodyVals = (decodeBodyPart s req.body).1 := by
        split at hr
        · cases hr
        · rename_i queryVals queryMapVal heq
          split at hr
          · cases hr
          · rename_i headerVals heq2
            cases hr
            rfl
      rw [hbv, hreq] at hx
      exact hbody x hx
  · intro w hw x hx
    unfold decodeResponse at hw
    by_cases hlt : resp.status < 400
    · rw [if_pos hlt] at hw
      split at hw
      · cases hw
      · rename_i headerVals heq
        cases hw
        simp only at hx
        rw [hresp] at hx
        exact hbody x hx
    · rw [if_neg hlt] at hw
      split at hw <;> cases hw

/-- C5 witness: a request and a response with two optional body fields and an
empty wire body decode successfully to the all-defaults value. -/
theorem c5_witness :
    decodeRequest
      { fields := [⟨"a", FieldLocation.body⟩, ⟨"b", FieldLocation.body⟩] }
      { description := "d", method := "POST", name := "n", path := "/p",
        rateLimited := false, authentication := "None" }
      ⟨"POST", "/p", [], none⟩ =
      some (Except.ok ⟨[], [], [], [], [none, none], none⟩) ∧
    (Option.none (α := Json)) = none := by
  constructor
  · rfl
  · exact (c5_empty_body_is_empty_object (E := Unit)
      { fields := [⟨"a", FieldLocation.body⟩, ⟨"b", FieldLocation.body⟩] }
      { description := "d", method := "POST", name := "n", path := "/p",
        rateLimited := false, authentication := "None" }
      ⟨"POST", "/p", [], none⟩ ⟨200, [], none⟩ (fun _ => none) rfl rfl).2.1
      ⟨[], [], [], [], [none, none], none⟩ rfl none (by simp)

/-- C6: the URI of an encoded request is the base URL with at most one
trailing `/` removed (exactly one is removed iff the base URL ends with
`/`), followed by the substituted path string, followed by the query
string. -/
theorem c6_uri_construction (s : Schema) (meta : Metadata) (v : ReqValue)
    (baseUrl : String) (tok : Option String) (req : HttpRequest)
    (henc : encodeRequest s meta v baseUrl tok = Except.ok req) :
    req.uri = stripTrailingSlash baseUrl
        ++ requestPathString meta.path v.pathVals
        ++ buildQueryString (encodeQueryPairs s v) ∧
    (baseUrl.data.getLast? = some '/' →
        stripTrailingSlash baseUrl ++ "/" = baseUrl) ∧
    (baseUrl.data.getLast? ≠ some '/' →
        stripTrailingSlash baseUrl = baseUrl) := by
  refine ⟨?_, ?_, ?_⟩
  · unfold encodeRequest at henc
    split at henc
    · cases henc
    · cases henc
      rfl
  · intro hlast
    unfold stripTrailingSlash
    rw [if_pos hlast]
    have hne : baseUrl.data ≠ [] := by
      intro h
      rw [h] at hlast
      cases hlast
    apply String.ext
    rw [String.data_append]
    show baseUrl.data.dropLast ++ ['/'] = baseUrl.data
    have := List.dropLast_append_getLast hne
    rwa [List.getLast_eq_iff_getLast?_eq_some hne |>.mpr hlast] at this
  · intro hlast
    unfold stripTrailingSlash
    rw [if_neg hlast]

/-- C6 witness. -/
theorem c6_witness :
    ("https://host" : String) ++ requestPathString "/p" [] ++ buildQueryString [] =
      "https://host" ++ requestPathString "/p" [] ++ buildQueryString [] ∧
    stripTrailingSlash "https://host/" ++ "/" = "https://host/" ∧
    stripTrailingSlash "https://host" = "https://host" := by
  refine ⟨rfl, ?_, ?_⟩
  · exact (c6_uri_construction { fields := [] }
      { description := "d", method := "GET", name := "n", path := "/p",
        rateLimited := false, authentication := "None" }
      ⟨[], [], [], [], [], none⟩ "https://host/" none _ rfl).2.1 (by decide)
  · exact (c6_uri_construction { fields := [] }
      { description := "d", method := "GET", name := "n", path := "/p",
        rateLimited := false, authentication := "None" }
      ⟨[], [], [], [], [], none⟩ "https://host" none _ rfl).2.2 (by decide)

/-- C7 counterexample: the claim asserts the usable-without-credentials
capability marker is emitted on both the request and the response types, but
even for authentication scheme `None` the generator emits the two markers on
the request and incoming-request types only — the response type receives no
marker. -/
theorem c7_counterexample :
    (nonAuthEndpointImpls "None").outgoingRequestMarker = true ∧
    (nonAuthEndpointImpls "None").incomingRequestMarker = true ∧
    (nonAuthEndpointImpls "None").responseMarker = false := by
  decide

/-- C7 (amended): for every endpoint whose authentication scheme is `None`
(and only those), the generator emits the usable-without-credentials
capability markers — on the request type and on the incoming request type;
no marker is emitted on the response type under any scheme. -/
theorem c7_non_auth_request_markers (authentication : String) :
    (((nonAuthEndpointImpls authentication).outgoingRequestMarker = true ∧
      (nonAuthEndpointImpls authentication).incomingRequestMarker = true) ↔
      authentication = "None") ∧
    (nonAuthEndpointImpls authentication).responseMarker = false := by
  unfold nonAuthEndpointImpls
  by_cases h : authentication = "None"
  · simp [h]
  · simp [h]

/-- C7 witness: the amended theorem applied at the schemes `None` and
`AccessToken`. -/
theorem c7_witness :
    ((nonAuthEndpointImpls "None").outgoingRequestMarker = true ∧
      (nonAuthEndpointImpls "None").incomingRequestMarker = true) ∧
    (nonAuthEndpointImpls "AccessToken").responseMarker = false := by
  constructor
  · exact (c7_non_auth_request_markers "None").1.mpr rfl
  · exact (c7_non_auth_request_markers "AccessToken").2

/-- C8: when the endpoint definition has no trailing `error:` clause, the
resolved error type is the canonical empty-error marker `Void`. -/
theorem c8_default_error_is_void (metadata : Metadata) (request response : Schema)
    (api : Api)
    (h : apiParse metadata request response ErrorClauseInput.absent = Except.ok api) :
    api.errorTy = voidErrorTy := by
  unfold apiParse at h
  split at h
  · cases h
  · cases h
    rfl

/-- C8 witness: the concrete parse result of an endpoint without an error
clause carries the `Void` error type. -/
theorem c8_witness :
    (Api.mk (Metadata.mk "d" "POST" "n" "/p" false "None")
      (Schema.mk []) (Schema.mk []) voidErrorTy).errorTy = voidErrorTy :=
  c8_default_error_is_void (Metadata.mk "d" "POST" "n" "/p" false "None")
    (Schema.mk []) (Schema.mk []) _ (by rfl)

/-- C9: a malformed trailing error clause is not reported as a syntax error
by `Api::parse`: the parse proceeds exactly as if the clause were absent,
silently falling back to the `Void` error type. -/
theorem c9_malformed_error_clause_ignored (metadata : Metadata)
    (request response : Schema) :
    apiParse metadata request response ErrorClauseInput.malformed =
      apiParse metadata request response ErrorClauseInput.absent ∧
    (∀ api, apiParse metadata request response ErrorClauseInput.malformed =
        Except.ok api → api.errorTy = voidErrorTy) := by
  constructor
  · rfl
  · intro api h
    unfold apiParse at h
    split at h
    · cases h
    · cases h
      rfl

/-- C9 witness: a malformed clause on a well-formed endpoint still parses,
with the `Void` error type. -/
theorem c9_witness :
    apiParse
      { description := "d", method := "POST", name := "n", path := "/p",
        rateLimited := false, authentication := "None" }
      { fields := [] } { fields := [] } ErrorClauseInput.malformed =
      apiParse
        { description := "d", method := "POST", name := "n", path := "/p",
          rateLimited := false, authentication := "None" }
        { fields := [] } { fields := [] } ErrorClauseInput.absent := by
  exact (c9_malformed_error_clause_ignored _ _ _).1

/-- C10: the incoming-request decoder of an endpoint with path fields
extracts path segments by dropping the first character of the URI path and
splitting the remainder on `/`; the extraction is undefined exactly when the
URI path is empty, so decoding is total only when the path is nonempty
(i.e. begins with the assumed leading `/`). -/
theorem c10_path_slice_partiality (s : Schema) (meta : Metadata)
    (req : HttpRequest) (hp : s.hasPathFields = true) :
    (decodeRequest s meta req = none ↔ (uriPathOf req.uri).data = []) ∧
    (∀ p : String, p.data ≠ [] →
      extractRequestPathSegments p =
        some ((String.mk (p.data.drop 1)).split (fun c => c == '/'))) ∧
    extractRequestPathSegments "" = none := by
  refine ⟨⟨?_, ?_⟩, ?_, rfl⟩
  · intro hnone
    simp only [decodeRequest] at hnone
    split at hnone
    · rename_i hcond
      rw [Bool.and_eq_true] at hcond
      exact List.isEmpty_iff.mp hcond.2
    · cases hnone
  · intro hempty
    simp only [decodeRequest]
    have hcond : (s.hasPathFields && (uriPathOf req.uri).data.isEmpty) = true := by
      rw [hp, hempty]
      rfl
    rw [if_pos hcond]
  · intro p hp2
    unfold extractRequestPathSegments
    rw [if_neg (by simp [List.isEmpty_iff, hp2])]

/-- C10 witness. -/
theorem c10_witness :
    (decodeRequest { fields := [⟨"id", FieldLocation.path⟩] }
      { description := "d", method := "GET", name := "n", path := "/r/\x7bid\x7d",
        rateLimited := false, authentication := "None" }
      ⟨"GET", "", [], none⟩ = none) ∧
    extractRequestPathSegments "" = none := by
  constructor
  · exact (c10_path_slice_partiality
      { fields := [⟨"id", FieldLocation.path⟩] }
      { description := "d", method := "GET", name := "n", path := "/r/\x7bid\x7d",
        rateLimited := false, authentication := "None" }
      ⟨"GET", "", [], none⟩ rfl).1.mpr rfl
  · exact (c10_path_slice_partiality
      { fields := [⟨"id", FieldLocation.path⟩] }
      { description := "d", method := "GET", name := "n", path := "/r/\x7bid\x7d",
        rateLimited := false, authentication := "None" }
      ⟨"GET", "", [], none⟩ rfl).2.2


/-- C1: for every well-formed endpoint definition and every well-formed
`Request` value (over every combination of field locations, including a
request whose optional body fields are all unset, with the escaping-free wire
model requiring payloads free of URI separator characters), decoding the
wire-level HTTP request produced by the outgoing-request encoder yields the
original value; the same round-trip holds for every `Response` value through
the outgoing-response encoder and incoming-response decoder. -/
theorem c1_encode_decode_roundtrip {E : Type} (s rs : Schema) (meta : Metadata)
    (tsegs : List String) (v : ReqValue) (w : RespValue) (tok : Option String)
    (req : HttpRequest) (errDec : HttpResponse → Option E)
    (hs : SchemaOK s meta tsegs) (hv : ReqWF s v) (hc : ValClean v)
    (hrs : RespSchemaOK rs) (hw : RespWF rs w)
    (henc : encodeRequest s meta v "" tok = Except.ok req) :
    decodeRequest s meta req = some (Except.ok v) ∧
    decodeResponse rs errDec (encodeResponse rs w) = Except.ok w :=
  ⟨decodeRequest_encodeRequest s meta tsegs v tok req hs hv hc henc,
   decodeResponse_encodeResponse rs errDec w hrs hw⟩

/-- C1 witness: a concrete endpoint with path, query, header and body fields
(one optional body field unset), an access-token header, and a response whose
single optional body field is unset (empty body), round-trips exactly. -/
theorem c1_witness :
    decodeRequest
      { fields := [⟨"room_id", FieldLocation.path⟩, ⟨"limit", FieldLocation.query⟩,
                   ⟨"x-custom", FieldLocation.header⟩, ⟨"flag", FieldLocation.body⟩,
                   ⟨"note", FieldLocation.body⟩] }
      { description := "d", method := "POST", name := "n",
        path := "/r0/\x7broom_id\x7d/messages", rateLimited := false,
        authentication := "AccessToken" }
      ⟨"POST", "/r0/!abc/messages?limit=10",
        [("x-custom", "x"), ("authorization", "Bearer tok1")],
        some (Json.obj [("flag", Json.str "y")])⟩
      = some (Except.ok ⟨["!abc"], ["10"], [], ["x"], [some (Json.str "y"), none], none⟩) ∧
    decodeResponse
      { fields := [⟨"x-h", FieldLocation.header⟩, ⟨"a", FieldLocation.body⟩] }
      (fun _ => (none : Option Unit))
      (encodeResponse
        { fields := [⟨"x-h", FieldLocation.header⟩, ⟨"a", FieldLocation.body⟩] }
        ⟨["hv"], [none], none⟩)
      = Except.ok ⟨["hv"], [none], none⟩ := by
  apply c1_encode_decode_roundtrip (E := Unit)
    { fields := [⟨"room_id", FieldLocation.path⟩, ⟨"limit", FieldLocation.query⟩,
                 ⟨"x-custom", FieldLocation.header⟩, ⟨"flag", FieldLocation.body⟩,
                 ⟨"note", FieldLocation.body⟩] }
    { fields := [⟨"x-h", FieldLocation.header⟩, ⟨"a", FieldLocation.body⟩] }
    { description := "d", method := "POST", name := "n",
      path := "/r0/\x7broom_id\x7d/messages", rateLimited := false,
      authentication := "AccessToken" }
    ["r0", "\x7broom_id\x7d", "messages"]
    ⟨["!abc"], ["10"], [], ["x"], [some (Json.str "y"), none], none⟩
    ⟨["hv"], [none], none⟩
    (some "tok1")
    ⟨"POST", "/r0/!abc/messages?limit=10",
      [("x-custom", "x"), ("authorization", "Bearer tok1")],
      some (Json.obj [("flag", Json.str "y")])⟩
    (fun _ => (none : Option Unit))
  · exact ⟨by decide, by decide, by decide, by decide, by decide, by decide,
      by decide, fun h => absurd h (by decide), fun h => absurd h (by decide)⟩
  · exact ⟨by decide, fun _ => by decide, fun _ => rfl,
      fun h => absurd h (by decide), by decide,
      fun h => absurd h (by decide), fun _ => rfl, fun _ => by decide⟩
  · exact ⟨by decide, by decide, by decide⟩
  · exact ⟨by decide, by decide, fun h => absurd h (by decide), by decide⟩
  · exact ⟨by decide, fun h => absurd h (by decide), fun _ => rfl, fun _ => by decide⟩
  · rfl

end RumaApi
